import Mathlib

/-!
# consul `commands.go`

A shallow embedding of `commands.go`: the `Commands` table built by `init`
(a Go map literal from command names to factories) and `makeShutdownCh`
(a signal subscription, a 4-slot `signalCh`, a forwarding goroutine and an
unbuffered `resultCh`).

Go channels and goroutines are embedded as explicit state: a `World` holds
every stream created so far, a factory is a function on the `World`, and the
scheduler's choices are the steps of a step function.
-/

set_option linter.dupNamespace false

namespace Consul

/-! ## Signals, channels and the state of one `makeShutdownCh` call -/

/-- Signals of the host. `Interrupt` is `os.Interrupt`, `SIGTERM` is
`syscall.SIGTERM`; `other n` stands for any signal `makeShutdownCh` does not
name. -/
inductive OsSignal
  | Interrupt
  | SIGTERM
  | other (n : Nat)
  deriving DecidableEq, Repr

/-- Where the goroutine of lines 261-266 stands: at `<-signalCh` (line 263), or
at `resultCh <- struct{}{}` (line 264). The value received on line 263 is
discarded by the source; `taken` remembers it so that the order of deliveries
can be stated, and no step looks at it. -/
inductive Forwarder
  | atRecv
  | atSend (taken : OsSignal)
  deriving DecidableEq, Repr

/-- The state behind one call of `makeShutdownCh`: the signals passed to
`signal.Notify` (line 260), the contents of the buffered `signalCh`
(line 259, oldest first) and the goroutine. The unbuffered `resultCh`
(line 257) holds nothing: a value passes through it only when the goroutine
stands at line 264 and a consumer receives. -/
structure Stream where
  notifySigs : List OsSignal
  signalCh : List OsSignal
  fwd : Forwarder
  deriving DecidableEq, Repr

/-- Capacity of `signalCh`: `make(chan os.Signal, 4)`. -/
def signalChCap : Nat := 4

/-- A channel value as a command holds it: the `resultCh` of the `i`-th
`makeShutdownCh` call, or the `i`-th channel made by a bare
`make(chan struct{})`, which has no sender and no subscription. -/
inductive Chan
  | resultCh (i : Nat)
  | plain (i : Nat)
  deriving DecidableEq, Repr

/-- Process state the file acts on: the streams created by `makeShutdownCh`
so far, in call order (each one a live signal subscription with its
goroutine), and the number of bare channels made. -/
structure World where
  streams : List Stream
  plain : Nat
  deriving DecidableEq, Repr

/-- The process before any factory has run. -/
def World.start : World := { streams := [], plain := 0 }

/-- The stream as `makeShutdownCh` leaves it: subscribed to `os.Interrupt` and
`syscall.SIGTERM`, `signalCh` empty, the goroutine about to receive. -/
def Stream.fresh : Stream :=
  { notifySigs := [OsSignal.Interrupt, OsSignal.SIGTERM], signalCh := [], fwd := Forwarder.atRecv }

/-- The call `make(chan struct{})` on its own (line 29): a new unbuffered channel. -/
def makeChan (w : World) : Chan × World :=
  (Chan.plain w.plain, { w with plain := w.plain + 1 })

/-- The function `makeShutdownCh` (lines 256-269): makes `resultCh` and `signalCh`,
subscribes `signalCh`, starts the goroutine, returns `resultCh`. -/
def makeShutdownCh (w : World) : Chan × World :=
  (Chan.resultCh w.streams.length, { w with streams := w.streams ++ [Stream.fresh] })

/-! ## The command table -/

/-- The writer of `cli.BasicUi`; the source only uses `os.Stdout`. -/
inductive Writer
  | Stdout
  deriving DecidableEq, Repr

/-- The literal `cli.BasicUi{Writer: ...}`. -/
structure BasicUi where
  Writer : Writer
  deriving DecidableEq, Repr

/-- The flag sets of package `base` that the literals name. -/
inductive FlagSet
  | FlagSetNone
  | FlagSetHTTP
  | FlagSetClientHTTP
  deriving DecidableEq, Repr

/-- The literal `base.Command{Flags: ..., Ui: ...}`. -/
structure BaseCommand where
  Flags : FlagSet
  Ui : BasicUi
  deriving DecidableEq, Repr

/-- The Go type of a command literal (`agent.Command`, `command.KVCommand`, ...). -/
inductive CommandType
  | AgentCommand | ConfigTestCommand | EventCommand | ExecCommand
  | ForceLeaveCommand | InfoCommand | JoinCommand | KeygenCommand
  | KeyringCommand | KVCommand | KVDeleteCommand | KVGetCommand
  | KVPutCommand | KVExportCommand | KVImportCommand | LeaveCommand
  | LockCommand | MaintCommand | MembersCommand | MonitorCommand
  | OperatorCommand | ReloadCommand | RTTCommand | SnapshotCommand
  | SnapshotRestoreCommand | SnapshotSaveCommand | SnapshotInspectCommand
  | VersionCommand | WatchCommand
  deriving DecidableEq, Repr

/-- A command value as its literal writes it: the Go type and the fields the
literal sets (`none` for a field the literal does not mention). -/
structure Command where
  type : CommandType
  Ui : Option BasicUi := none
  Command : Option BaseCommand := none
  ShutdownCh : Option Chan := none
  Revision : Option String := none
  Version : Option String := none
  VersionPrerelease : Option String := none
  HumanVersion : Option String := none
  deriving DecidableEq, Repr

/-- What the literals read from package `version`: its three constants and
the result of `version.GetHumanVersion()`. -/
structure VersionPkg where
  GitCommit : String
  Version : String
  VersionPrerelease : String
  GetHumanVersion : String

/-- The `error` of Go; `none` is `nil`. -/
abbrev GoError := Option String

/-- The type `cli.CommandFactory`, `func() (cli.Command, error)`, with the process
state it may act on made explicit. -/
abbrev CommandFactory := World → (Command × GoError) × World

/-- The function `init` (lines 18-251), run in world `w0`: makes `ui` and builds the map
literal assigned to `Commands`, here the list of its key/factory pairs in
source order, and returns it with the world it leaves. Each factory body is
the literal of the source; a call inside a body (`make(chan struct{})`,
`makeShutdownCh()`) runs when the factory is called, on the world the factory
is called in, and `init` itself calls neither. -/
def init (version : VersionPkg) (w0 : World) : List (String × CommandFactory) × World :=
  let ui : BasicUi := { Writer := Writer.Stdout }
  ([
    ("agent", fun w =>
      (({ type := CommandType.AgentCommand,
          Revision := some version.GitCommit,
          Version := some version.Version,
          VersionPrerelease := some version.VersionPrerelease,
          HumanVersion := some version.GetHumanVersion,
          Ui := some ui,
          ShutdownCh := some (makeChan w).1 }, none), (makeChan w).2)),
    ("configtest", fun w =>
      (({ type := CommandType.ConfigTestCommand,
          Command := some { Flags := FlagSet.FlagSetNone, Ui := ui } }, none), w)),
    ("event", fun w =>
      (({ type := CommandType.EventCommand,
          Command := some { Flags := FlagSet.FlagSetHTTP, Ui := ui } }, none), w)),
    ("exec", fun w =>
      (({ type := CommandType.ExecCommand,
          ShutdownCh := some (makeShutdownCh w).1,
          Command := some { Flags := FlagSet.FlagSetHTTP, Ui := ui } }, none), (makeShutdownCh w).2)),
    ("force-leave", fun w =>
      (({ type := CommandType.ForceLeaveCommand,
          Command := some { Flags := FlagSet.FlagSetClientHTTP, Ui := ui } }, none), w)),
    ("info", fun w =>
      (({ type := CommandType.InfoCommand,
          Command := some { Flags := FlagSet.FlagSetClientHTTP, Ui := ui } }, none), w)),
    ("join", fun w =>
      (({ type := CommandType.JoinCommand,
          Command := some { Flags := FlagSet.FlagSetClientHTTP, Ui := ui } }, none), w)),
    ("keygen", fun w =>
      (({ type := CommandType.KeygenCommand,
          Command := some { Flags := FlagSet.FlagSetNone, Ui := ui } }, none), w)),
    ("keyring", fun w =>
      (({ type := CommandType.KeyringCommand,
          Command := some { Flags := FlagSet.FlagSetClientHTTP, Ui := ui } }, none), w)),
    ("kv", fun w =>
      (({ type := CommandType.KVCommand,
          Command := some { Flags := FlagSet.FlagSetNone, Ui := ui } }, none), w)),
    ("kv delete", fun w =>
      (({ type := CommandType.KVDeleteCommand,
          Command := some { Flags := FlagSet.FlagSetHTTP, Ui := ui } }, none), w)),
    ("kv get", fun w =>
      (({ type := CommandType.KVGetCommand,
          Command := some { Flags := FlagSet.FlagSetHTTP, Ui := ui } }, none), w)),
    ("kv put", fun w =>
      (({ type := CommandType.KVPutCommand,
          Command := some { Flags := FlagSet.FlagSetHTTP, Ui := ui } }, none), w)),
    ("kv export", fun w =>
      (({ type := CommandType.KVExportCommand,
          Command := some { Flags := FlagSet.FlagSetHTTP, Ui := ui } }, none), w)),
    ("kv import", fun w =>
      (({ type := CommandType.KVImportCommand,
          Command := some { Flags := FlagSet.FlagSetHTTP, Ui := ui } }, none), w)),
    ("leave", fun w =>
      (({ type := CommandType.LeaveCommand, Ui := some ui }, none), w)),
    ("lock", fun w =>
      (({ type := CommandType.LockCommand,
          ShutdownCh := some (makeShutdownCh w).1,
          Command := some { Flags := FlagSet.FlagSetHTTP, Ui := ui } }, none), (makeShutdownCh w).2)),
    ("maint", fun w =>
      (({ type := CommandType.MaintCommand, Ui := some ui }, none), w)),
    ("members", fun w =>
      (({ type := CommandType.MembersCommand, Ui := some ui }, none), w)),
    ("monitor", fun w =>
      (({ type := CommandType.MonitorCommand,
          ShutdownCh := some (makeShutdownCh w).1,
          Ui := some ui }, none), (makeShutdownCh w).2)),
    ("operator", fun w =>
      (({ type := CommandType.OperatorCommand, Ui := some ui }, none), w)),
    ("reload", fun w =>
      (({ type := CommandType.ReloadCommand, Ui := some ui }, none), w)),
    ("rtt", fun w =>
      (({ type := CommandType.RTTCommand, Ui := some ui }, none), w)),
    ("snapshot", fun w =>
      (({ type := CommandType.SnapshotCommand, Ui := some ui }, none), w)),
    ("snapshot restore", fun w =>
      (({ type := CommandType.SnapshotRestoreCommand, Ui := some ui }, none), w)),
    ("snapshot save", fun w =>
      (({ type := CommandType.SnapshotSaveCommand, Ui := some ui }, none), w)),
    ("snapshot inspect", fun w =>
      (({ type := CommandType.SnapshotInspectCommand, Ui := some ui }, none), w)),
    ("version", fun w =>
      (({ type := CommandType.VersionCommand,
          HumanVersion := some version.GetHumanVersion,
          Ui := some ui }, none), w)),
    ("watch", fun w =>
      (({ type := CommandType.WatchCommand,
          ShutdownCh := some (makeShutdownCh w).1,
          Ui := some ui }, none), (makeShutdownCh w).2))
  ], w0)

/-- The package variable `Commands` once `init` has run at process start. -/
def Commands (version : VersionPkg) : List (String × CommandFactory) :=
  (init version World.start).1

/-- Values for the constants of package `version`, for concrete runs. -/
def VersionPkg.sample : VersionPkg :=
  { GitCommit := "0f1a2b3", Version := "0.8.0", VersionPrerelease := "dev",
    GetHumanVersion := "0.8.0-dev (0f1a2b3)" }

/-- The Go map index `Commands[name]` in its two-value form: the factory stored
under a key equal to `name`, or `none` (Go's `ok == false`). -/
def Commands.index (version : VersionPkg) (name : String) : Option CommandFactory :=
  (Commands version).lookup name

/-- The keys of `Commands`. -/
def Commands.keys (version : VersionPkg) : List String :=
  (Commands version).map Prod.fst

/-! ## Signal delivery, the forwarding goroutine and the consumer -/

/-- What package `os/signal` does with one occurrence of `sig` for one
subscribed channel: a channel not subscribed to `sig` is left alone, and for
a subscribed one the send does not block (the package documents that it will
not block sending to the channel), so the occurrence is queued when
`signalCh` has a free slot and is lost when it has none. -/
def Stream.notify (st : Stream) (sig : OsSignal) : Stream :=
  if sig ∈ st.notifySigs then
    if st.signalCh.length < signalChCap then
      { st with signalCh := st.signalCh ++ [sig] }
    else st
  else st

/-- Line 263, `<-signalCh`: enabled when the goroutine stands there and
`signalCh` is not empty; takes the oldest value and moves to line 264. -/
def Stream.forward (st : Stream) : Option Stream :=
  match st.fwd, st.signalCh with
  | Forwarder.atRecv, sig :: rest => some { st with signalCh := rest, fwd := Forwarder.atSend sig }
  | _, _ => none

/-- A consumer's receive on `resultCh`, which completes line 264,
`resultCh <- struct{}{}`: enabled when the goroutine stands at line 264
(the channel is unbuffered); the consumer gets one event and the goroutine
loops back to line 263. The event is returned as the occurrence it stands
for. -/
def Stream.recv (st : Stream) : Option (OsSignal × Stream) :=
  match st.fwd with
  | Forwarder.atSend sig => some (sig, { st with fwd := Forwarder.atRecv })
  | Forwarder.atRecv => none

/-- A move in the life of one stream: the host raises a signal, the goroutine
passes line 263, a consumer receives from `resultCh`. -/
inductive Step
  | signal (sig : OsSignal)
  | forward
  | recv
  deriving DecidableEq, Repr

/-- One move: `none` when the move is not enabled (the party is blocked),
else the next state and the events the consumer received. -/
def Stream.step (st : Stream) : Step → Option (Stream × List OsSignal)
  | Step.signal sig => some (st.notify sig, [])
  | Step.forward => st.forward.map fun st1 => (st1, [])
  | Step.recv => st.recv.map fun r => (r.2, [r.1])

/-- A schedule run from `st`: a move that is not enabled does not happen.
Returns the final state and the events received, oldest first. -/
def Stream.run (st : Stream) : List Step → Stream × List OsSignal
  | [] => (st, [])
  | a :: rest =>
    match st.step a with
    | none => st.run rest
    | some (st1, out) => ((st1.run rest).1, out ++ (st1.run rest).2)

/-- Occurrences held for the stream: those queued in `signalCh` plus the one
the goroutine has taken and not yet handed over. -/
def Stream.pending (st : Stream) : Nat :=
  st.signalCh.length +
    (match st.fwd with
     | Forwarder.atSend _ => 1
     | Forwarder.atRecv => 0)

/-- The consumer receiving `n` times in a row while the goroutine runs:
before each receive the goroutine passes line 263 if it can. -/
def drainSteps : Nat → List Step
  | 0 => []
  | n + 1 => Step.forward :: Step.recv :: drainSteps n

/-- The consumer reads until nothing is pending. -/
def Stream.drain (st : Stream) : Stream × List OsSignal :=
  st.run (drainSteps st.pending)

/-- Signals raised one after the other with the consumer reading once after
each: raise, the goroutine passes line 263, the consumer receives. -/
def rounds : List OsSignal → List Step
  | [] => []
  | sig :: rest => Step.signal sig :: Step.forward :: Step.recv :: rounds rest

/-- The subscribed occurrences in a schedule: the interrupts and SIGTERMs
raised. -/
def arrivals : List Step → List OsSignal
  | [] => []
  | Step.signal sig :: rest =>
    if sig ∈ Stream.fresh.notifySigs then sig :: arrivals rest else arrivals rest
  | _ :: rest => arrivals rest

/-! ## Several streams in one process -/

/-- A move of the process: the host raises a signal (seen by every
subscription), the goroutine of stream `i` passes line 263, the consumer of
stream `i` receives from its `resultCh`. -/
inductive WStep
  | signal (sig : OsSignal)
  | forward (i : Nat)
  | recv (i : Nat)
  deriving DecidableEq, Repr

/-- One occurrence of `sig`: `os/signal` offers it to every subscription. -/
def World.raise (w : World) (sig : OsSignal) : World :=
  { w with streams := w.streams.map fun st => st.notify sig }

/-- One move of the process; `none` when it is not enabled. The events
received are tagged with the stream they were received on. -/
def World.step (w : World) : WStep → Option (World × List (Nat × OsSignal))
  | WStep.signal sig => some (w.raise sig, [])
  | WStep.forward i =>
    match w.streams[i]? with
    | none => none
    | some st => st.forward.map fun st1 => ({ w with streams := w.streams.set i st1 }, [])
  | WStep.recv i =>
    match w.streams[i]? with
    | none => none
    | some st => st.recv.map fun r => ({ w with streams := w.streams.set i r.2 }, [(i, r.1)])

/-- A schedule of the process; a move that is not enabled does not happen. -/
def World.run (w : World) : List WStep → World × List (Nat × OsSignal)
  | [] => (w, [])
  | a :: rest =>
    match w.step a with
    | none => w.run rest
    | some (w1, out) => ((w1.run rest).1, out ++ (w1.run rest).2)

/-- What stream `j` sees of a move of the process: every signal, and its own
goroutine and consumer. -/
def WStep.view (j : Nat) : WStep → Option Step
  | WStep.signal sig => some (Step.signal sig)
  | WStep.forward i => if i = j then some Step.forward else none
  | WStep.recv i => if i = j then some Step.recv else none

/-- A consumer reads channel `c` once, the goroutines being free to run:
on a `resultCh` the goroutine passes line 263 if it can and the hand-off of
line 264 takes place; `none` when nothing is there to receive (the read
stays blocked). A bare channel has no sender. -/
def World.read (w : World) : Chan → Option (OsSignal × World)
  | Chan.plain _ => none
  | Chan.resultCh i =>
    match (w.run [WStep.forward i, WStep.recv i]) with
    | (w1, [(_, sig)]) => some (sig, w1)
    | _ => none

/-- Calling the factory registered under `name`, if any: the command, the
error and the world after the call. -/
def Commands.call (version : VersionPkg) (name : String) (w : World) :
    Option ((Command × GoError) × World) :=
  (Commands.index version name).map fun f => f w

/-- Outcome of resolving a name. -/
inductive Resolved
  | found (c : Command)
  | NotFound
  | failed (err : String)
  deriving DecidableEq, Repr

/-- Resolving `name`: index `Commands` and call the factory found. No entry
is `NotFound`; a factory returning a non-nil error is `failed`. -/
def resolve (version : VersionPkg) (name : String) (w : World) : Resolved × World :=
  match Commands.index version name with
  | none => (Resolved.NotFound, w)
  | some f =>
    match f w with
    | ((c, none), w1) => (Resolved.found c, w1)
    | ((_, some err), w1) => (Resolved.failed err, w1)

/-- A key cut at every space, the pieces `strings.Split(key, " ")` gives, on
the characters of the key. -/
def splitAtSpaces : List Char → List (List Char)
  | [] => [[]]
  | c :: rest =>
    if c = ' ' then [] :: splitAtSpaces rest
    else
      match splitAtSpaces rest with
      | [] => [[c]]
      | piece :: pieces => (c :: piece) :: pieces

/-- The words of a key: the key cut at every space. A key with no space has
one field, itself; an empty field shows a leading, trailing or doubled
space. -/
def fields (key : String) : List String :=
  (splitAtSpaces key.data).map String.mk

/-- The command the factory of `name` builds in world `w` carries a stream of
the Shutdown Signal Source: its `ShutdownCh` is what `makeShutdownCh` returns
in `w`, and the world after the call is the world `makeShutdownCh` leaves
(the subscription and the goroutine are there). -/
def carriesShutdownStream (version : VersionPkg) (name : String) (w : World) : Bool :=
  match Commands.call version name w with
  | none => false
  | some r =>
    decide (r.1.1.ShutdownCh = some (makeShutdownCh w).1) && decide (r.2 = (makeShutdownCh w).2)

/-- The world after the factory of `name` has been called `n` times in a row
from `w` (an unregistered name changes nothing). -/
def callTimes (version : VersionPkg) (name : String) : Nat → World → World
  | 0, w => w
  | n + 1, w =>
    match Commands.call version name w with
    | none => callTimes version name n w
    | some r => callTimes version name n r.2

/-- Signals raised one after the other in a process where stream `i` is never
read and the consumer of stream `j` reads once after each: raise, the
goroutine of `i` runs if it can, the goroutine of `j` passes line 263, the
consumer of `j` receives. -/
def roundsBeside (i j : Nat) : List OsSignal → List WStep
  | [] => []
  | sig :: rest =>
    WStep.signal sig :: WStep.forward i :: WStep.forward j :: WStep.recv j ::
      roundsBeside i j rest

/-- Two calls of `makeShutdownCh`, one after the other: the channel of the
first, the channel of the second, and the world they leave. -/
def makeTwo (w : World) : Chan × Chan × World :=
  ((makeShutdownCh w).1, (makeShutdownCh (makeShutdownCh w).2).1,
    (makeShutdownCh (makeShutdownCh w).2).2)

/-- A schedule run from `st` in which every move has to be enabled: `none` as
soon as one move is not (a party would have had to wait), else the final
state and the events received, oldest first. -/
def Stream.runEnabled (st : Stream) : List Step → Option (Stream × List OsSignal)
  | [] => some (st, [])
  | a :: rest =>
    match st.step a with
    | none => none
    | some (st1, out) =>
      match st1.runEnabled rest with
      | none => none
      | some (st2, outs) => some (st2, out ++ outs)

/-- What each move of a schedule run from `st` did, move by move: `none` for a
move that was not enabled (it does not happen), else the events the consumer
received at that very move. -/
def Stream.trace (st : Stream) : List Step → List (Option (List OsSignal))
  | [] => []
  | a :: rest =>
    match st.step a with
    | none => none :: st.trace rest
    | some (st1, out) => some out :: st1.trace rest

/-! ## Facts about the table -/

theorem Commands.keys_eq (version : VersionPkg) :
    Commands.keys version =
      ["agent", "configtest", "event", "exec", "force-leave", "info", "join", "keygen",
       "keyring", "kv", "kv delete", "kv get", "kv put", "kv export", "kv import", "leave",
       "lock", "maint", "members", "monitor", "operator", "reload", "rtt", "snapshot",
       "snapshot restore", "snapshot save", "snapshot inspect", "version", "watch"] := rfl

theorem Commands.keys_nodup (version : VersionPkg) : (Commands.keys version).Nodup := by
  rw [Commands.keys_eq]; decide

theorem lookup_none_of_not_mem {β : Type} (l : List (String × β)) (k : String)
    (h : k ∉ l.map Prod.fst) : l.lookup k = none := by
  induction l with
  | nil => rfl
  | cons p l ih =>
    obtain ⟨k1, b⟩ := p
    simp only [List.map_cons, List.mem_cons, not_or] at h
    have hne : (k == k1) = false := by simpa using h.1
    simp only [List.lookup_cons, hne]
    exact ih h.2

theorem lookup_some_mem {β : Type} (l : List (String × β)) (k : String) (b : β)
    (h : l.lookup k = some b) : (k, b) ∈ l := by
  induction l with
  | nil => simp at h
  | cons p l ih =>
    obtain ⟨k1, b1⟩ := p
    by_cases hk : k = k1
    · subst hk
      simp only [List.lookup_cons_self, Option.some.injEq] at h
      subst h
      exact List.mem_cons_self _ _
    · have hne : (k == k1) = false := by simpa using hk
      simp only [List.lookup_cons, hne] at h
      exact List.mem_cons_of_mem _ (ih h)

theorem Commands.index_none (version : VersionPkg) (name : String)
    (h : name ∉ Commands.keys version) : Commands.index version name = none :=
  lookup_none_of_not_mem _ _ h

theorem Commands.index_some_mem (version : VersionPkg) (name : String) (f : CommandFactory)
    (h : Commands.index version name = some f) : name ∈ Commands.keys version := by
  have := lookup_some_mem _ _ _ h
  exact List.mem_map_of_mem Prod.fst this

theorem Commands.key_cases (version : VersionPkg) (name : String)
    (h : name ∈ Commands.keys version) :
    name = "agent" ∨ name = "configtest" ∨ name = "event" ∨ name = "exec" ∨
    name = "force-leave" ∨ name = "info" ∨ name = "join" ∨ name = "keygen" ∨
    name = "keyring" ∨ name = "kv" ∨ name = "kv delete" ∨ name = "kv get" ∨
    name = "kv put" ∨ name = "kv export" ∨ name = "kv import" ∨ name = "leave" ∨
    name = "lock" ∨ name = "maint" ∨ name = "members" ∨ name = "monitor" ∨
    name = "operator" ∨ name = "reload" ∨ name = "rtt" ∨ name = "snapshot" ∨
    name = "snapshot restore" ∨ name = "snapshot save" ∨ name = "snapshot inspect" ∨
    name = "version" ∨ name = "watch" := by
  rw [Commands.keys_eq] at h
  simpa only [List.mem_cons, List.mem_singleton, List.not_mem_nil, or_false] using h

/-- Every registered name has a factory, and in every world that factory
returns a nil error. -/
theorem Commands.factory_of_key (version : VersionPkg) (name : String)
    (h : name ∈ Commands.keys version) :
    ∃ f, Commands.index version name = some f ∧ ∀ w, (f w).1.2 = none := by
  rcases Commands.key_cases version name h with
    rfl | rfl | rfl | rfl | rfl | rfl | rfl | rfl | rfl | rfl | rfl | rfl | rfl | rfl | rfl |
    rfl | rfl | rfl | rfl | rfl | rfl | rfl | rfl | rfl | rfl | rfl | rfl | rfl | rfl <;>
  exact ⟨_, rfl, fun _ => rfl⟩

/-- What calling the factory of a registered name does, by the kind of the
name: the four that call `makeShutdownCh`, "agent" with its bare channel, and
the rest, which set no `ShutdownCh` and leave the world alone. -/
theorem Commands.call_effect (version : VersionPkg) (name : String) (w : World)
    (h : name ∈ Commands.keys version) :
    ∃ r, Commands.call version name w = some r ∧ r.1.2 = none ∧
      ((name ∈ ["exec", "lock", "monitor", "watch"] ∧
          r.1.1.ShutdownCh = some (makeShutdownCh w).1 ∧ r.2 = (makeShutdownCh w).2) ∨
       (name = "agent" ∧ r.1.1.ShutdownCh = some (makeChan w).1 ∧ r.2 = (makeChan w).2) ∨
       (name ∉ ["agent", "exec", "lock", "monitor", "watch"] ∧
          r.1.1.ShutdownCh = none ∧ r.2 = w)) := by
  rcases Commands.key_cases version name h with
    rfl | rfl | rfl | rfl | rfl | rfl | rfl | rfl | rfl | rfl | rfl | rfl | rfl | rfl | rfl |
    rfl | rfl | rfl | rfl | rfl | rfl | rfl | rfl | rfl | rfl | rfl | rfl | rfl | rfl <;>
  refine ⟨_, rfl, rfl, ?_⟩ <;>
  first
    | exact Or.inl ⟨by decide, rfl, rfl⟩
    | exact Or.inr (Or.inl ⟨rfl, rfl, rfl⟩)
    | exact Or.inr (Or.inr ⟨by decide, rfl, rfl⟩)

theorem Commands.call_none (version : VersionPkg) (name : String) (w : World)
    (h : name ∉ Commands.keys version) : Commands.call version name w = none := by
  unfold Commands.call
  rw [Commands.index_none version name h]
  rfl

/-- Every entry of the table is found under its own key. -/
theorem Commands.index_of_entry (version : VersionPkg) (e : String × CommandFactory)
    (h : e ∈ Commands version) : Commands.index version e.1 = some e.2 := by
  simp only [Commands, init, List.mem_cons, List.mem_singleton, List.not_mem_nil, or_false] at h
  rcases h with
    rfl | rfl | rfl | rfl | rfl | rfl | rfl | rfl | rfl | rfl | rfl | rfl | rfl | rfl | rfl |
    rfl | rfl | rfl | rfl | rfl | rfl | rfl | rfl | rfl | rfl | rfl | rfl | rfl | rfl <;>
  rfl

/-- The Go type of the command an entry builds does not depend on the world. -/
theorem Commands.type_const (version : VersionPkg) (e : String × CommandFactory)
    (h : e ∈ Commands version) (w : World) :
    (e.2 w).1.1.type = (e.2 World.start).1.1.type := by
  simp only [Commands, init, List.mem_cons, List.mem_singleton, List.not_mem_nil, or_false] at h
  rcases h with
    rfl | rfl | rfl | rfl | rfl | rfl | rfl | rfl | rfl | rfl | rfl | rfl | rfl | rfl | rfl |
    rfl | rfl | rfl | rfl | rfl | rfl | rfl | rfl | rfl | rfl | rfl | rfl | rfl | rfl <;>
  rfl

/-- The Go type written under each key, in source order. -/
theorem Commands.types_eq (version : VersionPkg) :
    (Commands version).map (fun e => (e.1, (e.2 World.start).1.1.type)) =
      [("agent", CommandType.AgentCommand), ("configtest", CommandType.ConfigTestCommand),
       ("event", CommandType.EventCommand), ("exec", CommandType.ExecCommand),
       ("force-leave", CommandType.ForceLeaveCommand), ("info", CommandType.InfoCommand),
       ("join", CommandType.JoinCommand), ("keygen", CommandType.KeygenCommand),
       ("keyring", CommandType.KeyringCommand), ("kv", CommandType.KVCommand),
       ("kv delete", CommandType.KVDeleteCommand), ("kv get", CommandType.KVGetCommand),
       ("kv put", CommandType.KVPutCommand), ("kv export", CommandType.KVExportCommand),
       ("kv import", CommandType.KVImportCommand), ("leave", CommandType.LeaveCommand),
       ("lock", CommandType.LockCommand), ("maint", CommandType.MaintCommand),
       ("members", CommandType.MembersCommand), ("monitor", CommandType.MonitorCommand),
       ("operator", CommandType.OperatorCommand), ("reload", CommandType.ReloadCommand),
       ("rtt", CommandType.RTTCommand), ("snapshot", CommandType.SnapshotCommand),
       ("snapshot restore", CommandType.SnapshotRestoreCommand),
       ("snapshot save", CommandType.SnapshotSaveCommand),
       ("snapshot inspect", CommandType.SnapshotInspectCommand),
       ("version", CommandType.VersionCommand), ("watch", CommandType.WatchCommand)] := rfl

/-- In the table of types no type stands under two names. -/
theorem Commands.types_injective (version : VersionPkg) :
    ∀ p ∈ (Commands version).map (fun e => (e.1, (e.2 World.start).1.1.type)),
    ∀ q ∈ (Commands version).map (fun e => (e.1, (e.2 World.start).1.1.type)),
      p.2 = q.2 → p.1 = q.1 := by
  rw [Commands.types_eq]
  decide

/-- C1: resolving a name fails exactly when the name is not a key of `Commands`,
the failure is then `NotFound` and leaves the world as it was; under a
registered name the factory returns its command with a nil error, which
`resolve` hands on, and `resolve` never reports a construction error. -/
theorem resolve_fails_only_notFound (version : VersionPkg) (name : String) (w : World) :
    ((resolve version name w).1 = Resolved.NotFound ↔ name ∉ Commands.keys version) ∧
    (∀ err, (resolve version name w).1 ≠ Resolved.failed err) ∧
    (∀ f, Commands.index version name = some f →
      (f w).1.2 = none ∧ resolve version name w = (Resolved.found (f w).1.1, (f w).2)) ∧
    (Commands.index version name = none → resolve version name w = (Resolved.NotFound, w)) := by
  have key : ∀ f, Commands.index version name = some f →
      (f w).1.2 = none ∧ resolve version name w = (Resolved.found (f w).1.1, (f w).2) := by
    intro f hf
    obtain ⟨g, hg, hnil⟩ := Commands.factory_of_key version name
      (Commands.index_some_mem version name f hf)
    have hfg : g = f := by rw [hg] at hf; exact Option.some.inj hf
    subst hfg
    refine ⟨hnil w, ?_⟩
    have h1 := hnil w
    unfold resolve
    rw [hg]
    rcases hgw : g w with ⟨⟨c, e⟩, w1⟩
    rw [hgw] at h1
    simp only at h1
    subst h1
    simp only [hgw]
  have none_case : Commands.index version name = none →
      resolve version name w = (Resolved.NotFound, w) := by
    intro hn
    unfold resolve
    rw [hn]
  by_cases h : name ∈ Commands.keys version
  · obtain ⟨f, hf, _⟩ := Commands.factory_of_key version name h
    have hr := (key f hf).2
    refine ⟨?_, ?_, key, none_case⟩
    · rw [hr]
      simp [h]
    · intro err
      rw [hr]
      simp
  · have hr := none_case (Commands.index_none version name h)
    refine ⟨?_, ?_, key, none_case⟩
    · rw [hr]
      simp [h]
    · intro err
      rw [hr]
      simp


/-- C2: lookup in `Commands` is by exact string equality and each registered
name yields its own command type: a factory found under `name` is the entry
whose key is `name`, every entry is found under its key, the type built under
each key is the one written there ("kv" gives KVCommand, "kv get" gives
KVGetCommand, "snapshot" gives SnapshotCommand, "snapshot save" gives
SnapshotSaveCommand, and so on), two names whose factories build the same
type are the same name, and "kv g", "kv get " and "KV" are not found. -/
theorem lookup_exact_own_variant (version : VersionPkg) (w : World) :
    (∀ name f, Commands.index version name = some f → (name, f) ∈ Commands version) ∧
    (∀ e ∈ Commands version, Commands.index version e.1 = some e.2) ∧
    ((Commands version).map (fun e => (e.1, (e.2 w).1.1.type)) =
      [("agent", CommandType.AgentCommand), ("configtest", CommandType.ConfigTestCommand),
       ("event", CommandType.EventCommand), ("exec", CommandType.ExecCommand),
       ("force-leave", CommandType.ForceLeaveCommand), ("info", CommandType.InfoCommand),
       ("join", CommandType.JoinCommand), ("keygen", CommandType.KeygenCommand),
       ("keyring", CommandType.KeyringCommand), ("kv", CommandType.KVCommand),
       ("kv delete", CommandType.KVDeleteCommand), ("kv get", CommandType.KVGetCommand),
       ("kv put", CommandType.KVPutCommand), ("kv export", CommandType.KVExportCommand),
       ("kv import", CommandType.KVImportCommand), ("leave", CommandType.LeaveCommand),
       ("lock", CommandType.LockCommand), ("maint", CommandType.MaintCommand),
       ("members", CommandType.MembersCommand), ("monitor", CommandType.MonitorCommand),
       ("operator", CommandType.OperatorCommand), ("reload", CommandType.ReloadCommand),
       ("rtt", CommandType.RTTCommand), ("snapshot", CommandType.SnapshotCommand),
       ("snapshot restore", CommandType.SnapshotRestoreCommand),
       ("snapshot save", CommandType.SnapshotSaveCommand),
       ("snapshot inspect", CommandType.SnapshotInspectCommand),
       ("version", CommandType.VersionCommand), ("watch", CommandType.WatchCommand)]) ∧
    (∀ n1 n2 f1 f2 w1 w2, Commands.index version n1 = some f1 →
      Commands.index version n2 = some f2 →
      (f1 w1).1.1.type = (f2 w2).1.1.type → n1 = n2) ∧
    Commands.index version "kv g" = none ∧
    Commands.index version "kv get " = none ∧
    Commands.index version "KV" = none := by
  refine ⟨fun name f h => lookup_some_mem _ _ _ h, Commands.index_of_entry version, rfl,
    ?_, rfl, rfl, rfl⟩
  intro n1 n2 f1 f2 w1 w2 h1 h2 ht
  have m1 := lookup_some_mem _ _ _ h1
  have m2 := lookup_some_mem _ _ _ h2
  have t1 := Commands.type_const version _ m1 w1
  have t2 := Commands.type_const version _ m2 w2
  have p1 := List.mem_map_of_mem (fun e : String × CommandFactory =>
    (e.1, (e.2 World.start).1.1.type)) m1
  have p2 := List.mem_map_of_mem (fun e : String × CommandFactory =>
    (e.1, (e.2 World.start).1.1.type)) m2
  refine Commands.types_injective version _ p1 _ p2 ?_
  simp only at t1 t2 ⊢
  rw [← t1, ← t2]
  exact ht

/-- C10: every key of `Commands` is a single word or two words with one space
between them, the first word of a two-word key is itself a key, and the
two-word keys are the five under "kv" and the three under "snapshot". -/
theorem keys_closed_under_group (version : VersionPkg) :
    (∀ key ∈ Commands.keys version,
      (fields key = [key] ∧ key ≠ "") ∨
      (∃ group action, fields key = [group, action] ∧ group ≠ "" ∧ action ≠ "" ∧
        key = group ++ " " ++ action ∧ group ∈ Commands.keys version)) ∧
    (Commands.keys version).filter (fun key => (fields key).length = 2) =
      ["kv delete", "kv get", "kv put", "kv export", "kv import",
       "snapshot restore", "snapshot save", "snapshot inspect"] ∧
    (Commands.keys version).filter (fun key => 2 < (fields key).length) = [] := by
  refine ⟨?_, ?_, ?_⟩
  · intro key h
    have hk := Commands.key_cases version key h
    rw [Commands.keys_eq]
    rcases hk with
      rfl | rfl | rfl | rfl | rfl | rfl | rfl | rfl | rfl | rfl | rfl | rfl | rfl | rfl | rfl |
      rfl | rfl | rfl | rfl | rfl | rfl | rfl | rfl | rfl | rfl | rfl | rfl | rfl | rfl
    all_goals first
      | exact Or.inl (by decide)
      | exact Or.inr ⟨"kv", "delete", by decide⟩
      | exact Or.inr ⟨"kv", "get", by decide⟩
      | exact Or.inr ⟨"kv", "put", by decide⟩
      | exact Or.inr ⟨"kv", "export", by decide⟩
      | exact Or.inr ⟨"kv", "import", by decide⟩
      | exact Or.inr ⟨"snapshot", "restore", by decide⟩
      | exact Or.inr ⟨"snapshot", "save", by decide⟩
      | exact Or.inr ⟨"snapshot", "inspect", by decide⟩
  · rw [Commands.keys_eq]; decide
  · rw [Commands.keys_eq]; decide

/-- C10 at "kv get": two words, and "kv" is a key. -/
theorem keys_closed_under_group_witness :
    fields "kv get" = ["kv", "get"] ∧ "kv" ∈ Commands.keys VersionPkg.sample ∧
    ((fields "kv get" = ["kv get"] ∧ "kv get" ≠ "") ∨
      (∃ group action, fields "kv get" = [group, action] ∧ group ≠ "" ∧ action ≠ "" ∧
        "kv get" = group ++ " " ++ action ∧ group ∈ Commands.keys VersionPkg.sample)) :=
  ⟨by decide, by decide,
    (keys_closed_under_group VersionPkg.sample).1 "kv get" (by decide)⟩

/-- C4 as stated fails at "agent": its factory, called at process start, sets
`ShutdownCh` to a bare channel, leaves no stream (no subscription, no
goroutine) behind, and so does not carry a result of `makeShutdownCh`. -/
theorem agent_channel_is_bare :
    carriesShutdownStream VersionPkg.sample "agent" World.start = false ∧
    (Commands.call VersionPkg.sample "agent" World.start).map
        (fun r => (r.1.1.ShutdownCh, r.2.streams)) = some (some (Chan.plain 0), []) ∧
    ¬ (∀ name ∈ ["agent", "exec", "lock", "monitor", "watch"],
        carriesShutdownStream VersionPkg.sample name World.start = true) := by
  decide

/-- C4, amended: the commands built under "exec", "lock", "monitor" and
"watch", and only they, carry a stream of `makeShutdownCh`; the command built
under "agent" carries a bare channel made by `make(chan struct{})`, with no
stream added to the world; every other registered name builds a command with
no `ShutdownCh` and leaves the world as it was. -/
theorem shutdown_stream_carriers (version : VersionPkg) (name : String) (w : World) :
    (carriesShutdownStream version name w = true ↔
      name ∈ ["exec", "lock", "monitor", "watch"]) ∧
    (name = "agent" → ∃ r, Commands.call version name w = some r ∧
      r.1.1.ShutdownCh = some (Chan.plain w.plain) ∧ r.2.streams = w.streams ∧
      r.2.plain = w.plain + 1) ∧
    (name ∈ Commands.keys version →
      name ∉ ["agent", "exec", "lock", "monitor", "watch"] →
      ∃ r, Commands.call version name w = some r ∧ r.1.1.ShutdownCh = none ∧ r.2 = w) := by
  refine ⟨?_, ?_, ?_⟩
  · by_cases h : name ∈ Commands.keys version
    · obtain ⟨r, hr, _, hcase⟩ := Commands.call_effect version name w h
      unfold carriesShutdownStream
      rw [hr]
      rcases hcase with ⟨hm, hch, hw⟩ | ⟨hm, hch, hw⟩ | ⟨hm, hch, hw⟩
      · simp [hm, hch, hw]
      · subst hm
        simp [hch, makeChan, makeShutdownCh]
      · have hm2 : name ∉ ["exec", "lock", "monitor", "watch"] := by
          intro hin
          exact hm (List.mem_cons_of_mem _ hin)
        simp only [hm2, iff_false]
        simp [hch]
    · have hn := Commands.call_none version name w h
      unfold carriesShutdownStream
      rw [hn]
      have hm2 : name ∉ ["exec", "lock", "monitor", "watch"] := by
        intro hin
        apply h
        rw [Commands.keys_eq]
        simp only [List.mem_cons, List.mem_singleton, List.not_mem_nil, or_false] at hin ⊢
        rcases hin with rfl | rfl | rfl | rfl <;> decide
      simp [hm2]
  · rintro rfl
    exact ⟨_, rfl, rfl, rfl, rfl⟩
  · intro h hnot
    obtain ⟨r, hr, _, hcase⟩ := Commands.call_effect version name w h
    rcases hcase with ⟨hm, _, _⟩ | ⟨hm, _, _⟩ | ⟨_, hch, hw⟩
    · exact absurd (List.mem_cons_of_mem _ hm) hnot
    · subst hm
      exact absurd (List.mem_cons_self _ _) hnot
    · exact ⟨r, hr, hch, hw⟩

/-- C4, amended, at "exec" and "kv" from process start. -/
theorem shutdown_stream_carriers_witness :
    carriesShutdownStream VersionPkg.sample "exec" World.start = true ∧
    ∃ r, Commands.call VersionPkg.sample "kv" World.start = some r ∧
      r.1.1.ShutdownCh = none ∧ r.2 = World.start :=
  ⟨by decide,
    (shutdown_stream_carriers VersionPkg.sample "kv" World.start).2.2 (by decide) (by decide)⟩

/-- One call of a factory that calls `makeShutdownCh` adds one stream. -/
theorem callTimes_streams_of_mem (version : VersionPkg) (name : String)
    (h : name ∈ ["exec", "lock", "monitor", "watch"]) (n : Nat) (w : World) :
    (callTimes version name n w).streams = w.streams ++ List.replicate n Stream.fresh := by
  have hkey : name ∈ Commands.keys version := by
    rw [Commands.keys_eq]
    simp only [List.mem_cons, List.mem_singleton, List.not_mem_nil, or_false] at h ⊢
    rcases h with rfl | rfl | rfl | rfl <;> decide
  induction n generalizing w with
  | zero => simp [callTimes]
  | succ n ih =>
    obtain ⟨r, hr, _, hcase⟩ := Commands.call_effect version name w hkey
    have hw : r.2 = (makeShutdownCh w).2 := by
      rcases hcase with ⟨_, _, hw⟩ | ⟨hm, _, _⟩ | ⟨hm, _, _⟩
      · exact hw
      · subst hm
        exact absurd h (by decide)
      · exact absurd (List.mem_cons_of_mem _ h) hm
    unfold callTimes
    rw [hr]
    simp only
    rw [ih, hw]
    simp [makeShutdownCh, List.replicate_succ]

/-- A factory that does not call `makeShutdownCh` adds no stream, however
often it is called. -/
theorem callTimes_streams_of_not_mem (version : VersionPkg) (name : String)
    (h : name ∉ ["exec", "lock", "monitor", "watch"]) (n : Nat) (w : World) :
    (callTimes version name n w).streams = w.streams := by
  induction n generalizing w with
  | zero => rfl
  | succ n ih =>
    unfold callTimes
    by_cases hkey : name ∈ Commands.keys version
    · obtain ⟨r, hr, _, hcase⟩ := Commands.call_effect version name w hkey
      rw [hr]
      simp only
      rw [ih]
      rcases hcase with ⟨hm, _, _⟩ | ⟨_, _, hw⟩ | ⟨_, _, hw⟩
      · exact absurd hm h
      · rw [hw]; rfl
      · rw [hw]
    · rw [Commands.call_none version name w hkey]
      exact ih w

/-- C5 as stated fails: when `init` has run at process start and no factory has
been called there is no stream at all, for "exec" no more than for any other
name, and calling the factory of "exec" twice then makes two. -/
theorem no_subscription_after_init :
    (init VersionPkg.sample World.start).2.streams = [] ∧
    (callTimes VersionPkg.sample "exec" 1 (init VersionPkg.sample World.start).2).streams.length
      = 1 ∧
    (callTimes VersionPkg.sample "exec" 2 (init VersionPkg.sample World.start).2).streams.length
      = 2 := by
  decide

/-- C5, amended: `init` makes no stream (it leaves the world as it found it);
each call of the factory of "exec", "lock", "monitor" or "watch" calls
`makeShutdownCh` once, so `n` calls add `n` fresh streams; calls of any other
factory add none. -/
theorem subscriptions_made_at_invocation (version : VersionPkg) (name : String) (w : World)
    (n : Nat) :
    (init version w).2 = w ∧
    (name ∈ ["exec", "lock", "monitor", "watch"] →
      (∃ r, Commands.call version name w = some r ∧
        r.1.1.ShutdownCh = some (makeShutdownCh w).1 ∧ r.2 = (makeShutdownCh w).2) ∧
      (callTimes version name n w).streams = w.streams ++ List.replicate n Stream.fresh) ∧
    (name ∉ ["exec", "lock", "monitor", "watch"] →
      (callTimes version name n w).streams = w.streams) := by
  refine ⟨rfl, ?_, fun h => callTimes_streams_of_not_mem version name h n w⟩
  intro h
  refine ⟨?_, callTimes_streams_of_mem version name h n w⟩
  simp only [List.mem_cons, List.mem_singleton, List.not_mem_nil, or_false] at h
  rcases h with rfl | rfl | rfl | rfl <;> exact ⟨_, rfl, rfl, rfl⟩

/-- C5, amended, at "lock" called three times and "kv" called three times from
process start. -/
theorem subscriptions_made_at_invocation_witness :
    (callTimes VersionPkg.sample "lock" 3 World.start).streams =
      [Stream.fresh, Stream.fresh, Stream.fresh] ∧
    (callTimes VersionPkg.sample "kv" 3 World.start).streams = [] :=
  ⟨((subscriptions_made_at_invocation VersionPkg.sample "lock" World.start 3).2.1
      (by decide)).2,
    (subscriptions_made_at_invocation VersionPkg.sample "kv" World.start 3).2.2 (by decide)⟩

/-! ## Facts about one stream -/

theorem Stream.run_cons_none (st : Stream) (a : Step) (rest : List Step)
    (h : st.step a = none) : st.run (a :: rest) = st.run rest := by
  simp only [Stream.run, h]

theorem Stream.run_cons_some (st st1 : Stream) (a : Step) (rest : List Step)
    (out : List OsSignal) (h : st.step a = some (st1, out)) :
    st.run (a :: rest) = ((st1.run rest).1, out ++ (st1.run rest).2) := by
  simp only [Stream.run, h]

theorem Stream.notify_length_le (st : Stream) (sig : OsSignal)
    (h : st.signalCh.length ≤ signalChCap) : (st.notify sig).signalCh.length ≤ signalChCap := by
  unfold Stream.notify
  split
  · split
    · rename_i hlt
      simp only [List.length_append, List.length_singleton]
      omega
    · exact h
  · exact h

theorem Stream.step_length_le (st st1 : Stream) (a : Step) (out : List OsSignal)
    (hs : st.step a = some (st1, out)) (h : st.signalCh.length ≤ signalChCap) :
    st1.signalCh.length ≤ signalChCap := by
  obtain ⟨ns, q, f⟩ := st
  cases a with
  | signal sig =>
    simp only [Stream.step, Option.some.injEq, Prod.mk.injEq] at hs
    rw [← hs.1]
    exact Stream.notify_length_le _ sig h
  | forward =>
    cases f with
    | atSend c => simp [Stream.step, Stream.forward] at hs
    | atRecv =>
      cases q with
      | nil => simp [Stream.step, Stream.forward] at hs
      | cons s rest =>
        simp only [Stream.step, Stream.forward, Option.map_some', Option.some.injEq,
          Prod.mk.injEq] at hs
        rw [← hs.1]
        simp only [List.length_cons] at h ⊢
        omega
  | recv =>
    cases f with
    | atRecv => simp [Stream.step, Stream.recv] at hs
    | atSend c =>
      simp only [Stream.step, Stream.recv, Option.map_some', Option.some.injEq,
        Prod.mk.injEq] at hs
      rw [← hs.1]
      exact h

/-- The queue never holds more than its capacity, whatever the schedule. -/
theorem Stream.run_length_le (steps : List Step) (st : Stream)
    (h : st.signalCh.length ≤ signalChCap) :
    (st.run steps).1.signalCh.length ≤ signalChCap := by
  induction steps generalizing st with
  | nil => exact h
  | cons a rest ih =>
    cases hs : st.step a with
    | none =>
      rw [Stream.run_cons_none st a rest hs]
      exact ih st h
    | some r =>
      obtain ⟨st1, out⟩ := r
      rw [Stream.run_cons_some st st1 a rest out hs]
      exact ih st1 (Stream.step_length_le st st1 a out hs h)

theorem Stream.pending_le (st : Stream) : st.pending ≤ st.signalCh.length + 1 := by
  unfold Stream.pending
  split <;> omega

/-- Reading as often as occurrences are pending delivers them all: `drain`
receives `pending` events and leaves nothing pending. -/
theorem Stream.run_drainSteps (n : Nat) (st : Stream) (h : st.pending = n) :
    (st.run (drainSteps n)).2.length = n ∧ (st.run (drainSteps n)).1.pending = 0 := by
  induction n generalizing st with
  | zero => exact ⟨rfl, h⟩
  | succ n ih =>
    obtain ⟨ns, q, f⟩ := st
    cases f with
    | atSend c =>
      have hp : (Stream.mk ns q Forwarder.atRecv).pending = n := by
        simp only [Stream.pending] at h ⊢
        omega
      have := ih _ hp
      simp only [drainSteps, Stream.run, Stream.step, Stream.forward, Stream.recv,
        Option.map_none', Option.map_some', List.singleton_append, List.length_cons]
      exact ⟨by omega, this.2⟩
    | atRecv =>
      cases q with
      | nil => simp [Stream.pending] at h
      | cons s rest =>
        have hp : (Stream.mk ns rest Forwarder.atRecv).pending = n := by
          simp only [Stream.pending, List.length_cons] at h ⊢
          omega
        have := ih _ hp
        simp only [drainSteps, Stream.run, Stream.step, Stream.forward, Stream.recv,
          Option.map_some', List.nil_append, List.singleton_append, List.length_cons]
        exact ⟨by omega, this.2⟩

/-- Interrupts and SIGTERMs raised one at a time, each read before the next,
come out one per read, in order, and leave the stream as it began. -/
theorem Stream.run_rounds (sigs : List OsSignal)
    (h : ∀ s ∈ sigs, s = OsSignal.Interrupt ∨ s = OsSignal.SIGTERM) :
    Stream.fresh.run (rounds sigs) = (Stream.fresh, sigs) := by
  induction sigs with
  | nil => rfl
  | cons s rest ih =>
    have hrest := ih (fun x hx => h x (List.mem_cons_of_mem _ hx))
    have hs := h s (List.mem_cons_self _ _)
    rcases hs with rfl | rfl
    · simp only [rounds, Stream.run, Stream.step, Stream.notify, Stream.fresh, Stream.forward,
        Stream.recv] at hrest ⊢
      simp [signalChCap, hrest]
    · simp only [rounds, Stream.run, Stream.step, Stream.notify, Stream.fresh, Stream.forward,
        Stream.recv] at hrest ⊢
      simp [signalChCap, hrest]

/-! ## Facts about several streams -/

theorem World.run_skip (w : World) (a : WStep) (rest : List WStep)
    (h : w.step a = none) : w.run (a :: rest) = w.run rest := by
  simp only [World.run, h]

theorem World.run_move (w w1 : World) (a : WStep) (rest : List WStep)
    (out : List (Nat × OsSignal)) (h : w.step a = some (w1, out)) :
    w.run (a :: rest) = ((w1.run rest).1, out ++ (w1.run rest).2) := by
  simp only [World.run, h]

/-- A move of stream `i`'s goroutine or consumer leaves every other stream as
it was, and what it delivers is delivered on stream `i`. -/
theorem World.step_frame (w w1 : World) (i j : Nat) (hij : i ≠ j)
    (out : List (Nat × OsSignal))
    (h : w.step (WStep.forward i) = some (w1, out) ∨ w.step (WStep.recv i) = some (w1, out)) :
    w1.streams[j]? = w.streams[j]? ∧ w1.streams.length = w.streams.length ∧
    w1.plain = w.plain ∧ ∀ e ∈ out, e.1 = i := by
  rcases h with h | h
  · unfold World.step at h
    cases hs : w.streams[i]? with
    | none => simp [hs] at h
    | some st =>
      cases hf : st.forward with
      | none => simp [hs, hf] at h
      | some st1 =>
        simp only [hs, hf, Option.map_some', Option.some.injEq, Prod.mk.injEq] at h
        obtain ⟨hw, hout⟩ := h
        subst hw hout
        simp [List.getElem?_set_ne hij]
  · unfold World.step at h
    cases hs : w.streams[i]? with
    | none => simp [hs] at h
    | some st =>
      cases hf : st.recv with
      | none => simp [hs, hf] at h
      | some r =>
        simp only [hs, hf, Option.map_some', Option.some.injEq, Prod.mk.injEq] at h
        obtain ⟨hw, hout⟩ := h
        subst hw hout
        simp [List.getElem?_set_ne hij]

/-- What a process schedule does to stream `j` is what stream `j`'s own view of
the schedule does to it alone: its final state and the events its consumer
received depend on the signals raised and on its own goroutine and consumer,
and on nothing another stream does or fails to do. -/
theorem World.run_view (sched : List WStep) (w : World) (j : Nat) (st : Stream)
    (h : w.streams[j]? = some st) :
    (w.run sched).1.streams[j]? = some (st.run (sched.filterMap (WStep.view j))).1 ∧
    ((w.run sched).2.filter (fun e => e.1 = j)).map Prod.snd =
      (st.run (sched.filterMap (WStep.view j))).2 := by
  induction sched generalizing w st with
  | nil => exact ⟨h, rfl⟩
  | cons a rest ih =>
    cases a with
    | signal sig =>
      have hw : w.step (WStep.signal sig) = some (w.raise sig, []) := rfl
      have hst : st.step (Step.signal sig) = some (st.notify sig, []) := rfl
      have hj : (w.raise sig).streams[j]? = some (st.notify sig) := by
        simp [World.raise, h]
      have hv : (WStep.signal sig :: rest).filterMap (WStep.view j) =
          Step.signal sig :: rest.filterMap (WStep.view j) := rfl
      rw [World.run_move w _ _ rest _ hw, hv, Stream.run_cons_some st _ _ _ _ hst]
      simpa using ih (w.raise sig) (st.notify sig) hj
    | forward i =>
      by_cases hi : i = j
      · subst hi
        have hv : (WStep.forward i :: rest).filterMap (WStep.view i) =
            Step.forward :: rest.filterMap (WStep.view i) := by
          simp [WStep.view]
        rw [hv]
        cases hf : st.forward with
        | none =>
          have hw : w.step (WStep.forward i) = none := by simp [World.step, h, hf]
          have hst : st.step Step.forward = none := by simp [Stream.step, hf]
          rw [World.run_skip w _ rest hw, Stream.run_cons_none st _ _ hst]
          exact ih w st h
        | some st1 =>
          have hw : w.step (WStep.forward i) =
              some ({ w with streams := w.streams.set i st1 }, []) := by
            simp [World.step, h, hf]
          have hst : st.step Step.forward = some (st1, []) := by simp [Stream.step, hf]
          have hj : ({ w with streams := w.streams.set i st1 } : World).streams[i]? =
              some st1 := by
            simp [List.getElem?_set_self', h]
          rw [World.run_move w _ _ rest _ hw, Stream.run_cons_some st _ _ _ _ hst]
          simpa using ih _ st1 hj
      · have hv : (WStep.forward i :: rest).filterMap (WStep.view j) =
            rest.filterMap (WStep.view j) := by
          simp [WStep.view, hi]
        rw [hv]
        cases hw : w.step (WStep.forward i) with
        | none =>
          rw [World.run_skip w _ rest hw]
          exact ih w st h
        | some r =>
          obtain ⟨w1, out⟩ := r
          have hfr := World.step_frame w w1 i j hi out (Or.inl hw)
          have hout : out.filter (fun e => decide (e.1 = j)) = [] := by
            rw [List.filter_eq_nil_iff]
            intro e he
            have := hfr.2.2.2 e he
            simp only [decide_eq_true_eq]
            omega
          rw [World.run_move w w1 _ rest out hw]
          have := ih w1 st (by rw [hfr.1]; exact h)
          simp only [List.filter_append, hout, List.nil_append]
          exact this
    | recv i =>
      by_cases hi : i = j
      · subst hi
        have hv : (WStep.recv i :: rest).filterMap (WStep.view i) =
            Step.recv :: rest.filterMap (WStep.view i) := by
          simp [WStep.view]
        rw [hv]
        cases hf : st.recv with
        | none =>
          have hw : w.step (WStep.recv i) = none := by simp [World.step, h, hf]
          have hst : st.step Step.recv = none := by simp [Stream.step, hf]
          rw [World.run_skip w _ rest hw, Stream.run_cons_none st _ _ hst]
          exact ih w st h
        | some r =>
          obtain ⟨sig, st1⟩ := r
          have hw : w.step (WStep.recv i) =
              some ({ w with streams := w.streams.set i st1 }, [(i, sig)]) := by
            simp [World.step, h, hf]
          have hst : st.step Step.recv = some (st1, [sig]) := by simp [Stream.step, hf]
          have hj : ({ w with streams := w.streams.set i st1 } : World).streams[i]? =
              some st1 := by
            simp [List.getElem?_set_self', h]
          rw [World.run_move w _ _ rest _ hw, Stream.run_cons_some st _ _ _ _ hst]
          have := ih _ st1 hj
          simp only [List.singleton_append, List.filter_cons, decide_True, if_true,
            List.map_cons]
          exact ⟨this.1, by rw [this.2]⟩
      · have hv : (WStep.recv i :: rest).filterMap (WStep.view j) =
            rest.filterMap (WStep.view j) := by
          simp [WStep.view, hi]
        rw [hv]
        cases hw : w.step (WStep.recv i) with
        | none =>
          rw [World.run_skip w _ rest hw]
          exact ih w st h
        | some r =>
          obtain ⟨w1, out⟩ := r
          have hfr := World.step_frame w w1 i j hi out (Or.inr hw)
          have hout : out.filter (fun e => decide (e.1 = j)) = [] := by
            rw [List.filter_eq_nil_iff]
            intro e he
            have := hfr.2.2.2 e he
            simp only [decide_eq_true_eq]
            omega
          rw [World.run_move w w1 _ rest out hw]
          have := ih w1 st (by rw [hfr.1]; exact h)
          simp only [List.filter_append, hout, List.nil_append]
          exact this

theorem getElem?_append_pair_fst {α : Type} (l : List α) (a b : α) :
    (l ++ [a, b])[l.length]? = some a := by
  induction l with
  | nil => rfl
  | cons x l ih => simpa using ih

theorem getElem?_append_pair_snd {α : Type} (l : List α) (a b : α) :
    (l ++ [a, b])[l.length + 1]? = some b := by
  induction l with
  | nil => rfl
  | cons x l ih => simpa using ih

theorem set_append_pair_fst {α : Type} (l : List α) (a b c : α) :
    (l ++ [a, b]).set l.length c = l ++ [c, b] := by
  induction l with
  | nil => rfl
  | cons x l ih => simp

theorem set_append_pair_snd {α : Type} (l : List α) (a b c : α) :
    (l ++ [a, b]).set (l.length + 1) c = l ++ [a, c] := by
  induction l with
  | nil => rfl
  | cons x l ih => simp

/-- A read of a `resultCh` whose goroutine waits at line 263 with a value
queued: the goroutine takes the oldest value and hands one event over. -/
theorem World.read_queued (w : World) (i : Nat) (ns rest : List OsSignal) (sig : OsSignal)
    (h : w.streams[i]? = some ⟨ns, sig :: rest, Forwarder.atRecv⟩) :
    w.read (Chan.resultCh i) =
      some (sig, { w with streams := w.streams.set i ⟨ns, rest, Forwarder.atRecv⟩ }) := by
  have h1 : w.step (WStep.forward i) =
      some ({ w with streams := w.streams.set i ⟨ns, rest, Forwarder.atSend sig⟩ }, []) := by
    simp [World.step, h, Stream.forward]
  have h2 : ({ w with streams := w.streams.set i ⟨ns, rest, Forwarder.atSend sig⟩ } :
      World).step (WStep.recv i) =
      some ({ w with streams := w.streams.set i ⟨ns, rest, Forwarder.atRecv⟩ }, [(i, sig)]) := by
    simp [World.step, List.getElem?_set_self', h, Stream.recv, List.set_set]
  have hr : w.run [WStep.forward i, WStep.recv i] =
      ({ w with streams := w.streams.set i ⟨ns, rest, Forwarder.atRecv⟩ }, [(i, sig)]) := by
    rw [World.run_move _ _ _ _ _ h1, World.run_move _ _ _ _ _ h2]
    rfl
  simp only [World.read, hr]

/-- A read of a `resultCh` whose goroutine waits at line 263 with nothing
queued finds nothing: the read stays blocked. -/
theorem World.read_idle (w : World) (i : Nat) (ns : List OsSignal)
    (h : w.streams[i]? = some ⟨ns, [], Forwarder.atRecv⟩) :
    w.read (Chan.resultCh i) = none := by
  have h1 : w.step (WStep.forward i) = none := by simp [World.step, h, Stream.forward]
  have h2 : w.step (WStep.recv i) = none := by simp [World.step, h, Stream.recv]
  have hr : w.run [WStep.forward i, WStep.recv i] = (w, []) := by
    rw [World.run_skip _ _ _ h1, World.run_skip _ _ _ h2]
    rfl
  simp only [World.read, hr]

/-- The world after two `makeShutdownCh` calls and one interrupt or SIGTERM:
the earlier streams have been offered the signal, the two new ones hold it. -/
theorem makeTwo_raise (w : World) (sig : OsSignal)
    (h : sig = OsSignal.Interrupt ∨ sig = OsSignal.SIGTERM) :
    (makeTwo w).2.2.raise sig =
      { streams := w.streams.map (fun st => st.notify sig) ++
          [⟨Stream.fresh.notifySigs, [sig], Forwarder.atRecv⟩,
           ⟨Stream.fresh.notifySigs, [sig], Forwarder.atRecv⟩],
        plain := w.plain } := by
  rcases h with rfl | rfl <;>
  simp [makeTwo, makeShutdownCh, World.raise, Stream.notify, Stream.fresh, signalChCap]

theorem roundsBeside_view_reader (i j : Nat) (hij : i ≠ j) (sigs : List OsSignal) :
    (roundsBeside i j sigs).filterMap (WStep.view j) = rounds sigs := by
  induction sigs with
  | nil => rfl
  | cons s rest ih => simp [roundsBeside, rounds, WStep.view, hij, ih]

theorem roundsBeside_view_unread (i j : Nat) (hij : i ≠ j) (sigs : List OsSignal) :
    Step.recv ∉ (roundsBeside i j sigs).filterMap (WStep.view i) := by
  have hji : ¬ j = i := fun h => hij h.symm
  induction sigs with
  | nil => simp [roundsBeside]
  | cons s rest ih => simp [roundsBeside, WStep.view, hji, ih]

/-- A consumer that never receives gets nothing. -/
theorem Stream.run_no_recv (steps : List Step) (h : Step.recv ∉ steps) (st : Stream) :
    (st.run steps).2 = [] := by
  induction steps generalizing st with
  | nil => rfl
  | cons a rest ih =>
    have hrest : Step.recv ∉ rest := fun hm => h (List.mem_cons_of_mem _ hm)
    cases hs : st.step a with
    | none =>
      rw [Stream.run_cons_none st a rest hs]
      exact ih hrest st
    | some r =>
      obtain ⟨st1, out⟩ := r
      rw [Stream.run_cons_some st st1 a rest out hs]
      have hout : out = [] := by
        cases a with
        | signal sig =>
          simp only [Stream.step, Option.some.injEq, Prod.mk.injEq] at hs
          exact hs.2.symm
        | forward =>
          cases hf : st.forward with
          | none => simp [Stream.step, hf] at hs
          | some st2 =>
            simp only [Stream.step, hf, Option.map_some', Option.some.injEq,
              Prod.mk.injEq] at hs
            exact hs.2.symm
        | recv => exact absurd (List.mem_cons_self _ _) h
      simp [hout, ih hrest st1]

theorem World.read_pair_fst (l ns rest : List OsSignal) (L : List Stream) (b : Stream)
    (sig : OsSignal) (p : Nat) (hl : l = sig :: rest) :
    World.read ⟨L ++ [⟨ns, l, Forwarder.atRecv⟩, b], p⟩ (Chan.resultCh L.length) =
      some (sig, ⟨L ++ [⟨ns, rest, Forwarder.atRecv⟩, b], p⟩) := by
  subst hl
  rw [World.read_queued _ _ ns rest sig (getElem?_append_pair_fst L _ b)]
  simp only [set_append_pair_fst]

theorem World.read_pair_snd (l ns rest : List OsSignal) (L : List Stream) (a : Stream)
    (sig : OsSignal) (p : Nat) (hl : l = sig :: rest) :
    World.read ⟨L ++ [a, ⟨ns, l, Forwarder.atRecv⟩], p⟩ (Chan.resultCh (L.length + 1)) =
      some (sig, ⟨L ++ [a, ⟨ns, rest, Forwarder.atRecv⟩], p⟩) := by
  subst hl
  rw [World.read_queued _ _ ns rest sig (getElem?_append_pair_snd L a _)]
  simp only [set_append_pair_snd]

theorem World.read_pair_fst_idle (ns : List OsSignal) (L : List Stream) (b : Stream) (p : Nat) :
    World.read ⟨L ++ [⟨ns, [], Forwarder.atRecv⟩, b], p⟩ (Chan.resultCh L.length) = none :=
  World.read_idle _ _ ns (getElem?_append_pair_fst L _ b)

theorem World.read_pair_snd_idle (ns : List OsSignal) (L : List Stream) (a : Stream) (p : Nat) :
    World.read ⟨L ++ [a, ⟨ns, [], Forwarder.atRecv⟩], p⟩ (Chan.resultCh (L.length + 1)) = none :=
  World.read_idle _ _ ns (getElem?_append_pair_snd L a _)

/-- One round on a fresh stream, move by move: the signal is queued, the
goroutine takes it at line 263, and the read completes line 264, returns that
signal's event and leaves the stream fresh. -/
theorem Stream.round_moves (s : OsSignal)
    (h : s = OsSignal.Interrupt ∨ s = OsSignal.SIGTERM) :
    Stream.fresh.step (Step.signal s) =
      some (⟨Stream.fresh.notifySigs, [s], Forwarder.atRecv⟩, []) ∧
    Stream.step ⟨Stream.fresh.notifySigs, [s], Forwarder.atRecv⟩ Step.forward =
      some (⟨Stream.fresh.notifySigs, [], Forwarder.atSend s⟩, []) ∧
    Stream.step ⟨Stream.fresh.notifySigs, [], Forwarder.atSend s⟩ Step.recv =
      some (Stream.fresh, [s]) := by
  rcases h with rfl | rfl <;> exact ⟨rfl, rfl, rfl⟩

/-- Rounds of interrupts and SIGTERMs run with every move enabled. -/
theorem Stream.runEnabled_rounds (sigs : List OsSignal)
    (h : ∀ s ∈ sigs, s = OsSignal.Interrupt ∨ s = OsSignal.SIGTERM) :
    Stream.fresh.runEnabled (rounds sigs) = some (Stream.fresh, sigs) := by
  induction sigs with
  | nil => rfl
  | cons s rest ih =>
    have hrest := ih (fun x hx => h x (List.mem_cons_of_mem _ hx))
    obtain ⟨m1, m2, m3⟩ := Stream.round_moves s (h s (List.mem_cons_self _ _))
    simp only [rounds, Stream.runEnabled, m1, m2, m3, hrest, List.nil_append,
      List.singleton_append]

theorem getElem?_cons_three {α : Type} (a b c : α) (l : List α) (n : Nat) :
    (a :: b :: c :: l)[n + 3]? = l[n]? := by
  show (a :: b :: c :: l)[n + 2 + 1]? = l[n]?
  rw [List.getElem?_cons_succ]
  show (b :: c :: l)[n + 1 + 1]? = l[n]?
  rw [List.getElem?_cons_succ, List.getElem?_cons_succ]

/-- The trace of one more round in front. -/
theorem Stream.trace_rounds_cons (s : OsSignal) (rest : List OsSignal)
    (h : s = OsSignal.Interrupt ∨ s = OsSignal.SIGTERM) :
    Stream.fresh.trace (rounds (s :: rest)) =
      some [] :: some [] :: some [s] :: Stream.fresh.trace (rounds rest) := by
  obtain ⟨m1, m2, m3⟩ := Stream.round_moves s h
  simp only [rounds, Stream.trace, m1, m2, m3]

/-- Move by move through rounds of interrupts and SIGTERMs: in round `k` the
arrival and the goroutine's receive deliver nothing and the read delivers
the `k`-th signal's event. -/
theorem Stream.trace_rounds (sigs : List OsSignal)
    (h : ∀ s ∈ sigs, s = OsSignal.Interrupt ∨ s = OsSignal.SIGTERM) (k : Nat) :
    (Stream.fresh.trace (rounds sigs))[3 * k]? = sigs[k]?.map (fun _ => some []) ∧
    (Stream.fresh.trace (rounds sigs))[3 * k + 1]? = sigs[k]?.map (fun _ => some []) ∧
    (Stream.fresh.trace (rounds sigs))[3 * k + 2]? = sigs[k]?.map (fun s => some [s]) := by
  induction sigs generalizing k with
  | nil => exact ⟨rfl, rfl, rfl⟩
  | cons s rest ih =>
    rw [Stream.trace_rounds_cons s rest (h s (List.mem_cons_self _ _))]
    cases k with
    | zero => simp
    | succ k =>
      have := ih (fun x hx => h x (List.mem_cons_of_mem _ hx)) k
      have e0 : 3 * (k + 1) = 3 * k + 3 := by omega
      have e1 : 3 * (k + 1) + 1 = 3 * k + 1 + 3 := by omega
      have e2 : 3 * (k + 1) + 2 = 3 * k + 2 + 3 := by omega
      rw [e2, e1, e0]
      simp only [getElem?_cons_three, List.getElem?_cons_succ]
      exact this

theorem Stream.trace_length (steps : List Step) (st : Stream) :
    (st.trace steps).length = steps.length := by
  induction steps generalizing st with
  | nil => rfl
  | cons a rest ih =>
    cases hs : st.step a with
    | none => simp [Stream.trace, hs, ih]
    | some r => simp [Stream.trace, hs, ih]

theorem rounds_length (sigs : List OsSignal) : (rounds sigs).length = 3 * sigs.length := by
  induction sigs with
  | nil => rfl
  | cons s rest ih => simp only [rounds, List.length_cons, ih]; omega

/-! ## The claims about the shutdown channel -/

/-- C3 at a burst of six interrupts before the consumer reads: six
occurrences arrive and none has been read; the consumer then reads until
nothing is pending and gets four events when the goroutine had not yet run,
five when it had taken the first; and after any schedule without a read the
consumer gets at most five, however many arrived. -/
theorem burst_beyond_slack_is_lost :
    (arrivals (List.replicate 6 (Step.signal OsSignal.Interrupt))).length = 6 ∧
    (Stream.fresh.run (List.replicate 6 (Step.signal OsSignal.Interrupt))).2 = [] ∧
    ((Stream.fresh.run (List.replicate 6 (Step.signal OsSignal.Interrupt))).1.drain).2.length
      = 4 ∧
    ((Stream.fresh.run (List.replicate 6 (Step.signal OsSignal.Interrupt))).1.drain).1.pending
      = 0 ∧
    (arrivals (Step.signal OsSignal.Interrupt :: Step.forward ::
      List.replicate 5 (Step.signal OsSignal.Interrupt))).length = 6 ∧
    ((Stream.fresh.run (Step.signal OsSignal.Interrupt :: Step.forward ::
      List.replicate 5 (Step.signal OsSignal.Interrupt))).1.drain).2.length = 5 ∧
    (∀ steps, Step.recv ∉ steps →
      (Stream.fresh.run steps).2.length + ((Stream.fresh.run steps).1.drain).2.length ≤ 5) := by
  refine ⟨by decide, by decide, by decide, by decide, by decide, by decide, ?_⟩
  intro steps hsteps
  have h0 := Stream.run_no_recv steps hsteps Stream.fresh
  have h1 := (Stream.run_drainSteps _ (Stream.fresh.run steps).1 rfl).1
  have h2 := Stream.run_length_le steps Stream.fresh (by decide)
  have h3 := Stream.pending_le (Stream.fresh.run steps).1
  unfold Stream.drain
  rw [h0, h1]
  simp only [signalChCap] at h2
  simp only [List.length_nil]
  omega

/-- C8: interrupts and SIGTERMs raised one after the other on a stream of
`makeShutdownCh`, the consumer reading once after each, are delivered one per
read in the order they were raised. Every move of every round is enabled (the
arrival, the goroutine's receive at line 263, the read that completes line
264); before any signal a read finds nothing; within round `k` the arrival
and the goroutine's receive deliver nothing and the read returns exactly the
event of the `k`-th signal; after the first `k` rounds exactly the first `k`
have been received and the goroutine waits at line 263 again, so the next
signal is forwarded like the first. -/
theorem forwarded_after_each_read (sigs : List OsSignal)
    (h : ∀ s ∈ sigs, s = OsSignal.Interrupt ∨ s = OsSignal.SIGTERM) :
    Stream.fresh.run (rounds sigs) = (Stream.fresh, sigs) ∧
    (Stream.fresh.run (rounds sigs)).2.length = sigs.length ∧
    (∀ k, Stream.fresh.run (rounds (sigs.take k)) = (Stream.fresh, sigs.take k)) ∧
    Stream.fresh.runEnabled (rounds sigs) = some (Stream.fresh, sigs) ∧
    (∀ k, Stream.fresh.runEnabled (rounds (sigs.take k)) = some (Stream.fresh, sigs.take k)) ∧
    Stream.fresh.step Step.recv = none ∧
    Stream.fresh.recv = none ∧
    (∀ s ∈ sigs,
      Stream.fresh.step (Step.signal s) =
        some (⟨Stream.fresh.notifySigs, [s], Forwarder.atRecv⟩, []) ∧
      Stream.forward ⟨Stream.fresh.notifySigs, [s], Forwarder.atRecv⟩ =
        some ⟨Stream.fresh.notifySigs, [], Forwarder.atSend s⟩ ∧
      Stream.step ⟨Stream.fresh.notifySigs, [s], Forwarder.atRecv⟩ Step.forward =
        some (⟨Stream.fresh.notifySigs, [], Forwarder.atSend s⟩, []) ∧
      Stream.recv ⟨Stream.fresh.notifySigs, [], Forwarder.atSend s⟩ =
        some (s, Stream.fresh) ∧
      Stream.step ⟨Stream.fresh.notifySigs, [], Forwarder.atSend s⟩ Step.recv =
        some (Stream.fresh, [s])) ∧
    (Stream.fresh.trace (rounds sigs)).length = 3 * sigs.length ∧
    (∀ k, (Stream.fresh.trace (rounds sigs))[3 * k]? = sigs[k]?.map (fun _ => some []) ∧
      (Stream.fresh.trace (rounds sigs))[3 * k + 1]? = sigs[k]?.map (fun _ => some []) ∧
      (Stream.fresh.trace (rounds sigs))[3 * k + 2]? = sigs[k]?.map (fun s => some [s])) := by
  refine ⟨Stream.run_rounds sigs h, ?_, ?_, Stream.runEnabled_rounds sigs h, ?_, rfl, rfl, ?_,
    ?_, Stream.trace_rounds sigs h⟩
  · rw [Stream.run_rounds sigs h]
  · intro k
    exact Stream.run_rounds _ (fun s hs => h s (List.mem_of_mem_take hs))
  · intro k
    exact Stream.runEnabled_rounds _ (fun s hs => h s (List.mem_of_mem_take hs))
  · intro s hs
    obtain ⟨m1, m2, m3⟩ := Stream.round_moves s (h s hs)
    refine ⟨m1, ?_, m2, ?_, m3⟩
    · rcases h s hs with rfl | rfl <;> rfl
    · rcases h s hs with rfl | rfl <;> rfl
  · rw [Stream.trace_length, rounds_length]

/-- C8 at an interrupt, a SIGTERM and an interrupt: every move is enabled, the
three events come out in that order, and the second read (move 5) returns
the SIGTERM's event. -/
theorem forwarded_after_each_read_witness :
    Stream.fresh.runEnabled
        (rounds [OsSignal.Interrupt, OsSignal.SIGTERM, OsSignal.Interrupt]) =
      some (Stream.fresh, [OsSignal.Interrupt, OsSignal.SIGTERM, OsSignal.Interrupt]) ∧
    (Stream.fresh.trace
        (rounds [OsSignal.Interrupt, OsSignal.SIGTERM, OsSignal.Interrupt]))[5]? =
      some (some [OsSignal.SIGTERM]) :=
  ⟨(forwarded_after_each_read [OsSignal.Interrupt, OsSignal.SIGTERM, OsSignal.Interrupt]
      (by decide)).2.2.2.1,
    ((forwarded_after_each_read [OsSignal.Interrupt, OsSignal.SIGTERM, OsSignal.Interrupt]
      (by decide)).2.2.2.2.2.2.2.2.2 1).2.2⟩

/-- C9: in every state a stream of `makeShutdownCh` can reach, read or not,
the arrival of a signal is an enabled move (of the stream and of the
process), `signalCh` holds at most 4 occurrences and the stream at most 5,
before the arrival and after it; 5 is reached. -/
theorem signal_arrival_never_blocks (steps : List Step) (sig : OsSignal) (w : World) :
    ((Stream.fresh.run steps).1.step (Step.signal sig)).isSome = true ∧
    (w.step (WStep.signal sig)).isSome = true ∧
    (Stream.fresh.run steps).1.signalCh.length ≤ 4 ∧
    (Stream.fresh.run steps).1.pending ≤ 5 ∧
    ((Stream.fresh.run steps).1.notify sig).signalCh.length ≤ 4 ∧
    ((Stream.fresh.run steps).1.notify sig).pending ≤ 5 ∧
    (Stream.fresh.run (Step.signal OsSignal.Interrupt :: Step.forward ::
      List.replicate 4 (Step.signal OsSignal.SIGTERM))).1.pending = 5 := by
  have h2 := Stream.run_length_le steps Stream.fresh (by decide)
  have h3 := Stream.pending_le (Stream.fresh.run steps).1
  have h4 := Stream.notify_length_le (Stream.fresh.run steps).1 sig h2
  have h5 := Stream.pending_le ((Stream.fresh.run steps).1.notify sig)
  simp only [signalChCap] at h2 h4
  exact ⟨rfl, rfl, h2, by omega, h4, by omega, by decide⟩

/-- C6: after two calls of `makeShutdownCh` and one interrupt or SIGTERM, each
of the two channels yields one event, that signal, to its first read and
nothing to a second, in whichever order the two are read. -/
theorem one_event_on_each_stream (w : World) (sig : OsSignal)
    (h : sig = OsSignal.Interrupt ∨ sig = OsSignal.SIGTERM) :
    (makeTwo w).1 ≠ (makeTwo w).2.1 ∧
    (∃ wa wb, ((makeTwo w).2.2.raise sig).read (makeTwo w).1 = some (sig, wa) ∧
      wa.read (makeTwo w).1 = none ∧
      wa.read (makeTwo w).2.1 = some (sig, wb) ∧
      wb.read (makeTwo w).2.1 = none ∧ wb.read (makeTwo w).1 = none) ∧
    (∃ wa wb, ((makeTwo w).2.2.raise sig).read (makeTwo w).2.1 = some (sig, wa) ∧
      wa.read (makeTwo w).2.1 = none ∧
      wa.read (makeTwo w).1 = some (sig, wb) ∧
      wb.read (makeTwo w).1 = none ∧ wb.read (makeTwo w).2.1 = none) := by
  have e1 : (makeTwo w).1 =
      Chan.resultCh (w.streams.map (fun st => st.notify sig)).length := by
    simp [makeTwo, makeShutdownCh]
  have e2 : (makeTwo w).2.1 =
      Chan.resultCh ((w.streams.map (fun st => st.notify sig)).length + 1) := by
    simp [makeTwo, makeShutdownCh]
  rw [makeTwo_raise w sig h, e1, e2]
  refine ⟨by simp, ⟨_, _, World.read_pair_fst _ _ _ _ _ _ _ rfl, World.read_pair_fst_idle _ _ _ _,
    World.read_pair_snd _ _ _ _ _ _ _ rfl, World.read_pair_snd_idle _ _ _ _,
    World.read_pair_fst_idle _ _ _ _⟩,
    ⟨_, _, World.read_pair_snd _ _ _ _ _ _ _ rfl, World.read_pair_snd_idle _ _ _ _,
    World.read_pair_fst _ _ _ _ _ _ _ rfl, World.read_pair_fst_idle _ _ _ _,
    World.read_pair_snd_idle _ _ _ _⟩⟩

/-- C6 at process start with a SIGTERM: the first stream is read, then the
second. -/
theorem one_event_on_each_stream_witness :
    ∃ wa wb,
      ((makeTwo World.start).2.2.raise OsSignal.SIGTERM).read (Chan.resultCh 0) =
        some (OsSignal.SIGTERM, wa) ∧
      wa.read (Chan.resultCh 0) = none ∧
      wa.read (Chan.resultCh 1) = some (OsSignal.SIGTERM, wb) ∧
      wb.read (Chan.resultCh 1) = none ∧ wb.read (Chan.resultCh 0) = none :=
  (one_event_on_each_stream World.start OsSignal.SIGTERM (Or.inr rfl)).2.1

/-- C7: streams are independent. A move of stream `i`'s goroutine or consumer
leaves any other stream `j` as it was and delivers on `i` only; under any
schedule of the process the state of stream `j` and the events read on it are
those of its own view of the schedule (the signals raised, its own goroutine
and consumer), whatever happens or fails to happen on the others; and when
stream `i` is never read and the consumer of a fresh stream `j` reads once
after each interrupt or SIGTERM, stream `j` delivers every one of them in
order, nothing is delivered on `i`, and `j` ends ready for the next. -/
theorem streams_independent (w : World) (i j : Nat) (hij : i ≠ j) :
    (∀ w1 out,
      (w.step (WStep.forward i) = some (w1, out) ∨ w.step (WStep.recv i) = some (w1, out)) →
      w1.streams[j]? = w.streams[j]? ∧ ∀ e ∈ out, e.1 = i) ∧
    (∀ sched st, w.streams[j]? = some st →
      (w.run sched).1.streams[j]? = some (st.run (sched.filterMap (WStep.view j))).1 ∧
      ((w.run sched).2.filter (fun e => e.1 = j)).map Prod.snd =
        (st.run (sched.filterMap (WStep.view j))).2) ∧
    (∀ sigs sti, (∀ s ∈ sigs, s = OsSignal.Interrupt ∨ s = OsSignal.SIGTERM) →
      w.streams[i]? = some sti → w.streams[j]? = some Stream.fresh →
      ((w.run (roundsBeside i j sigs)).2.filter (fun e => e.1 = j)).map Prod.snd = sigs ∧
      (w.run (roundsBeside i j sigs)).2.filter (fun e => e.1 = i) = [] ∧
      (w.run (roundsBeside i j sigs)).1.streams[j]? = some Stream.fresh) := by
  refine ⟨?_, ?_, ?_⟩
  · intro w1 out h
    have := World.step_frame w w1 i j hij out h
    exact ⟨this.1, this.2.2.2⟩
  · intro sched st h
    exact World.run_view sched w j st h
  · intro sigs sti hs hi hj
    have vj := World.run_view (roundsBeside i j sigs) w j Stream.fresh hj
    have vi := World.run_view (roundsBeside i j sigs) w i sti hi
    rw [roundsBeside_view_reader i j hij sigs, Stream.run_rounds sigs hs] at vj
    rw [Stream.run_no_recv _ (roundsBeside_view_unread i j hij sigs) sti] at vi
    refine ⟨vj.2, ?_, vj.1⟩
    have := vi.2
    simpa using this

/-- C7 at two streams made at process start and six interrupts, the first
stream never read: the second delivers all six. -/
theorem streams_independent_witness :
    (((makeTwo World.start).2.2.run
        (roundsBeside 0 1 (List.replicate 6 OsSignal.Interrupt))).2.filter
        (fun e => e.1 = 1)).map Prod.snd = List.replicate 6 OsSignal.Interrupt ∧
    ((makeTwo World.start).2.2.run
        (roundsBeside 0 1 (List.replicate 6 OsSignal.Interrupt))).2.filter
        (fun e => e.1 = 0) = [] ∧
    ((makeTwo World.start).2.2.run
        (roundsBeside 0 1 (List.replicate 6 OsSignal.Interrupt))).1.streams[1]? =
      some Stream.fresh :=
  (streams_independent (makeTwo World.start).2.2 0 1 (by decide)).2.2
    (List.replicate 6 OsSignal.Interrupt) Stream.fresh (by decide) rfl rfl

end Consul
